import Mathlib

/-!
Shallow embedding of the procurement-decision core of the repository
(src/agent/tools.py, src/agent/memory.py, src/agent/state.py,
src/agent/agent.py).  Python dicts with a fixed key set are modelled as
structures; the JSON-backed rule store is modelled as an explicit
association list threaded through the store operations; the static vendor
catalog (an external data file) is passed as an explicit parameter.
Python ints are modelled as `Int`.
-/

/-- A vendor record from the static catalog: `{"name": ..., "price": ...}`. -/
structure Vendor where
  name : String
  price : Int
deriving Repr, DecidableEq

/-- The per-site rules dict stored by `memory.py`.  `agent.py` reads
`rules["approval_limit"]` directly and `rules.get("banned_vendors", [])`
with a default, so the `banned_vendors` key is modelled as optional. -/
structure SiteRules where
  approval_limit : Int
  banned_vendors : Option (List String)
deriving Repr, DecidableEq

/-- The in-memory form of the JSON rule store: an insertion-ordered map
from site name to rules, as a Python dict is. -/
abbrev Memory := List (String × SiteRules)

/-- Python dict update `memory[site] = rules`: replace in place if the key
exists, else append. -/
def memSet : Memory → String → SiteRules → Memory
  | [], site, rules => [(site, rules)]
  | (k, v) :: rest, site, rules =>
      if k = site then (k, rules) :: rest else (k, v) :: memSet rest site rules

/-- Python `memory.get(site)`: the stored value, or `none`. -/
def memGet : Memory → String → Option SiteRules
  | [], _ => none
  | (k, v) :: rest, site => if k = site then some v else memGet rest site

/-- `memory.write_site_rules`: load the store, set `memory[site] = rules`,
save, and return `memory[site]` (an absent key would raise, hence `Option`).
The store state is threaded explicitly in place of the JSON file. -/
def write_site_rules (memory : Memory) (site : String) (rules : SiteRules) :
    Memory × Option SiteRules :=
  let memory' := memSet memory site rules
  (memory', memGet memory' site)

/-- `memory.read_site_rules`: `memory.get(site)`. -/
def read_site_rules (memory : Memory) (site : String) : Option SiteRules :=
  memGet memory site

/-- Python `str.lower()`, modelled character-wise so the kernel can
evaluate it (Lean's own `String.toLower` recurses on byte positions). -/
def pyLower (s : String) : String :=
  String.mk (s.toList.map Char.toLower)

/-- `tools.filter_vendors`: drop vendors whose lower-cased name appears in
the lower-cased banned list. -/
def filter_vendors (vendors : List Vendor) (banned : List String) : List Vendor :=
  let banned_lower := banned.map (fun b => pyLower b)
  vendors.filter (fun v => !(banned_lower.contains (pyLower v.name)))

/-- `tools.select_cheapest`: Python `min(vendors, key=lambda v: v["price"])`
on a non-empty list keeps the first element and replaces it only on a
strictly smaller key, so it returns the earliest minimum; the empty list
gives `None`. -/
def select_cheapest (vendors : List Vendor) : Option Vendor :=
  match vendors with
  | [] => none
  | v :: rest => some (rest.foldl (fun best w => if w.price < best.price then w else best) v)

/-- The result dict of `tools.evaluate_vendors`. -/
structure EvalResult where
  all_vendors : List Vendor
  valid_vendors : List Vendor
  selected : Option Vendor
deriving Repr, DecidableEq

/-- `tools.evaluate_vendors`: load → filter → select, returning all three
artifacts.  The catalog loaded from `mock_vendors.json` is a parameter. -/
def evaluate_vendors (catalog : List Vendor) (banned_vendors : List String) : EvalResult :=
  let valid := filter_vendors catalog banned_vendors
  let cheapest := select_cheapest valid
  { all_vendors := catalog, valid_vendors := valid, selected := cheapest }

/-- Group the (reversed) digit list of a number into threes, as Python's
`format(n, ",")` does. -/
def insertThousands : List Char → List Char
  | a :: b :: c :: d :: rest => a :: b :: c :: ',' :: insertThousands (d :: rest)
  | l => l

/-- Comma-separated decimal rendering of a natural number. -/
def commaFormatNat (n : Nat) : String :=
  String.mk ((insertThousands (Nat.repr n).toList.reverse).reverse)

/-- Python `f"{n:,}"` for an int. -/
def commaFormat (n : Int) : String :=
  if n < 0 then "-" ++ commaFormatNat n.natAbs else commaFormatNat n.toNat

/-- The dict built by `state.pause_for_approval` and transformed by
`state.approve` / `state.reject`.  The `rejection_reason` key, present only
after a `reject`, is modelled as an optional field. -/
structure DecisionRecord where
  status : String
  site : String
  selected_vendor : String
  amount : Int
  approval_limit : Int
  reason : String
  rejection_reason : Option String
deriving Repr, DecidableEq

/-- `state.pause_for_approval`: the human-in-the-loop checkpoint value. -/
def pause_for_approval (site : String) (vendor : String) (cost : Int) (limit : Int) :
    DecisionRecord :=
  { status := "AWAITING_APPROVAL"
    site := site
    selected_vendor := vendor
    amount := cost
    approval_limit := limit
    reason := "Cost ₹" ++ commaFormat cost ++ " exceeds site approval limit of ₹" ++ commaFormat limit
    rejection_reason := none }

/-- `state.approve`: `{**paused_state, "status": "APPROVED"}`. -/
def approve (paused_state : DecisionRecord) : DecisionRecord :=
  { paused_state with status := "APPROVED" }

/-- `state.reject`: `{**paused_state, "status": "REJECTED",
"rejection_reason": reason}`. -/
def reject (paused_state : DecisionRecord) (reason : String) : DecisionRecord :=
  { paused_state with status := "REJECTED", rejection_reason := some reason }

/-- `state.reject` called without its optional argument, whose Python
default is `"Rejected by manager"`. -/
def rejectDefault (paused_state : DecisionRecord) : DecisionRecord :=
  reject paused_state "Rejected by manager"

/-- The discriminated return value of `agent.process_procurement`: each
constructor mirrors one of the dict shapes the function returns. -/
inductive Decision where
  | error (reason : String)
  | rejected (reason : String) (banned_vendors : List String)
  | approved (site : String) (item : String) (quantity : Int) (selected_vendor : String)
      (total_cost : Int) (approval_limit : Int) (reason : String)
  | awaiting (paused : DecisionRecord)
deriving Repr, DecidableEq

/-- `agent.process_procurement`: look up the site rules, evaluate vendors
against the banned list, and gate the selected price against the approval
limit.  The catalog and the store state are explicit parameters. -/
def process_procurement (catalog : List Vendor) (memory : Memory)
    (site : String) (item : String) (quantity : Int) : Decision :=
  match read_site_rules memory site with
  | none =>
      Decision.error ("No rules found for site '" ++ site ++ "'. Please set up site rules first.")
  | some rules =>
      let approval_limit := rules.approval_limit
      let banned_vendors := rules.banned_vendors.getD []
      let result := evaluate_vendors catalog banned_vendors
      match result.selected with
      | none =>
          Decision.rejected "All vendors are banned. No valid vendor available." banned_vendors
      | some selected =>
          let total_cost := selected.price
          if total_cost ≤ approval_limit then
            Decision.approved site item quantity selected.name total_cost approval_limit
              ("Cost ₹" ++ commaFormat total_cost ++ " is within approval limit of ₹" ++
                commaFormat approval_limit)
          else
            Decision.awaiting (pause_for_approval site selected.name total_cost approval_limit)

/-- `agent.store_site_rules`: wrap the fields into a rules dict and persist
them, returning the confirmation payload. -/
def store_site_rules (memory : Memory) (site : String) (approval_limit : Int)
    (banned_vendors : List String) : Memory × Option SiteRules :=
  write_site_rules memory site { approval_limit := approval_limit, banned_vendors := some banned_vendors }

/-- Erase the report-only fields (`item`, `quantity`) of a decision, to
state that they never affect anything else. -/
def stripReporting : Decision → Decision
  | Decision.approved site _item _quantity vend cost lim reason =>
      Decision.approved site "" 0 vend cost lim reason
  | d => d

/-! ### Lemmas about the store map -/

/-- Reading the key just set returns the value just stored. -/
lemma memGet_memSet_self (m : Memory) (k : String) (v : SiteRules) :
    memGet (memSet m k v) k = some v := by
  induction m with
  | nil => simp [memSet, memGet]
  | cons p rest ih =>
    obtain ⟨k', v'⟩ := p
    by_cases h : k' = k
    · simp [memSet, memGet, h]
    · simp [memSet, memGet, h, ih]

/-- Setting one key does not change what any other key reads. -/
lemma memGet_memSet_ne (m : Memory) (k k' : String) (v : SiteRules) (h : k ≠ k') :
    memGet (memSet m k v) k' = memGet m k' := by
  induction m with
  | nil => simp [memSet, memGet, h]
  | cons p rest ih =>
    obtain ⟨k₀, v₀⟩ := p
    by_cases h₀ : k₀ = k
    · subst h₀
      simp [memSet, memGet, h]
    · simp [memSet, memGet, h₀, ih]

/-- A sequence of writes that never touches `site` leaves `site` unread­able
if it was unreadable before. -/
lemma memGet_foldl_writes_ne (site : String) :
    ∀ (writes : List (String × SiteRules)) (m : Memory), (∀ p ∈ writes, p.1 ≠ site) →
      memGet m site = none →
      memGet (writes.foldl (fun m p => (write_site_rules m p.1 p.2).1) m) site = none := by
  intro writes
  induction writes with
  | nil => intro m _ hm; exact hm
  | cons p rest ih =>
    intro m h hm
    simp only [List.foldl_cons]
    refine ih _ (fun q hq => h q (List.mem_cons_of_mem p hq)) ?_
    simp only [write_site_rules]
    rw [memGet_memSet_ne _ _ _ _ (h p (List.mem_cons_self p rest))]
    exact hm

/-- The predicate of `filter_vendors`, restated as the spec's
case-insensitive non-match condition. -/
lemma filter_vendors_eq_filter (vendors : List Vendor) (banned : List String) :
    filter_vendors vendors banned =
      vendors.filter (fun v => decide (∀ b ∈ banned, ¬ pyLower v.name = pyLower b)) := by
  simp only [filter_vendors]
  refine List.filter_congr ?_
  intro v _
  rw [Bool.eq_iff_iff]
  simp
  constructor
  · intro h b hb heq
    exact h b hb heq.symm
  · intro h b hb heq
    exact h b hb heq.symm

/-! ### Claim theorems -/

/-- Claim C4: writing rules for a site and immediately reading that site
returns exactly the rules that were passed, and the write call itself
returns those stored rules unchanged. -/
theorem write_read_roundtrip (memory : Memory) (site : String) (rules : SiteRules) :
    (write_site_rules memory site rules).2 = some rules
    ∧ read_site_rules (write_site_rules memory site rules).1 site = some rules := by
  constructor <;> simp [write_site_rules, read_site_rules, memGet_memSet_self]

/-- Claim C6: starting from the empty store, after any sequence of writes
none of which targets `site`, reading `site` returns the `none` signal —
absence is an ordinary value, not an error. -/
theorem read_unwritten_none (writes : List (String × SiteRules)) (site : String)
    (h : ∀ p ∈ writes, p.1 ≠ site) :
    read_site_rules (writes.foldl (fun m p => (write_site_rules m p.1 p.2).1) []) site = none :=
  memGet_foldl_writes_ne site writes [] h rfl

/-- Witness for C6 at a concrete store: a write to Pune leaves Mumbai unread. -/
theorem read_unwritten_none_witness :
    read_site_rules (([("Pune", ⟨40000, some ["BadRock"]⟩)] : List (String × SiteRules)).foldl
      (fun m p => (write_site_rules m p.1 p.2).1) []) "Mumbai" = none :=
  read_unwritten_none _ "Mumbai" (by decide)

/-- Claim C9: writing rules for one site leaves every other site's stored
rules exactly as they were. -/
theorem write_site_rules_frame (memory : Memory) (s1 s2 : String) (rules : SiteRules)
    (h : s1 ≠ s2) :
    read_site_rules (write_site_rules memory s1 rules).1 s2 = read_site_rules memory s2 := by
  simp only [write_site_rules, read_site_rules]
  exact memGet_memSet_ne _ _ _ _ h

/-- Witness for C9: writing Pune does not disturb Mumbai's stored rules. -/
theorem write_site_rules_frame_witness :
    read_site_rules (write_site_rules ([("Mumbai", ⟨1000, none⟩)] : Memory)
      "Pune" ⟨40000, some ["BadRock"]⟩).1 "Mumbai" =
    read_site_rules ([("Mumbai", ⟨1000, none⟩)] : Memory) "Mumbai" :=
  write_site_rules_frame _ "Pune" "Mumbai" _ (by decide)

/-- Claim C5: `filter_vendors` is exactly the order-preserving filter of the
input by the predicate "name matches no banned entry case-insensitively";
it is a sublist of the input, and banning "badrock cements" removes a
vendor named "BadRock Cements". -/
theorem filter_vendors_spec (vendors : List Vendor) (banned : List String) :
    filter_vendors vendors banned =
      vendors.filter (fun v => decide (∀ b ∈ banned, ¬ pyLower v.name = pyLower b))
    ∧ List.Sublist (filter_vendors vendors banned) vendors
    ∧ filter_vendors [⟨"BadRock Cements", 38000⟩] ["badrock cements"] = [] := by
  refine ⟨filter_vendors_eq_filter vendors banned, ?_, by decide⟩
  simp only [filter_vendors]
  exact List.filter_sublist _

/-- Claim C7: filtering an already-filtered vendor list with the same
banned list returns it unchanged. -/
theorem filter_vendors_idempotent (vendors : List Vendor) (banned : List String) :
    filter_vendors (filter_vendors vendors banned) banned = filter_vendors vendors banned := by
  simp only [filter_vendors]
  apply List.filter_eq_self.mpr
  intro v hv
  exact (List.mem_filter.mp hv).2

/-- Claim C8: on an awaiting-approval record, `approve` changes only the
status tag, `reject` changes the tag and attaches the given reason leaving
all other fields unchanged, and the reason defaults to "Rejected by
manager" when not supplied. -/
theorem approve_reject_of_awaiting (d : DecisionRecord) (reason : String)
    (h : d.status = "AWAITING_APPROVAL") :
    approve d = { d with status := "APPROVED" }
    ∧ reject d reason = { d with status := "REJECTED", rejection_reason := some reason }
    ∧ rejectDefault d = reject d "Rejected by manager" :=
  ⟨rfl, rfl, rfl⟩

/-- Witness for C8 at a concrete awaiting-approval record. -/
theorem approve_reject_of_awaiting_witness :
    approve ⟨"AWAITING_APPROVAL", "Pune", "ACC", 42000, 40000, "over limit", none⟩ =
      ⟨"APPROVED", "Pune", "ACC", 42000, 40000, "over limit", none⟩
    ∧ reject ⟨"AWAITING_APPROVAL", "Pune", "ACC", 42000, 40000, "over limit", none⟩ "no budget" =
      ⟨"REJECTED", "Pune", "ACC", 42000, 40000, "over limit", some "no budget"⟩
    ∧ rejectDefault ⟨"AWAITING_APPROVAL", "Pune", "ACC", 42000, 40000, "over limit", none⟩ =
      reject ⟨"AWAITING_APPROVAL", "Pune", "ACC", 42000, 40000, "over limit", none⟩
        "Rejected by manager" :=
  approve_reject_of_awaiting _ "no budget" rfl

/-- Claim C10: `approve` and `reject` impose no precondition on the status
of their input: on any record they replace only the status tag (and, for
`reject`, attach the reason); approving a paused outcome retains the pause
justification stating that the cost exceeds the limit. -/
theorem approve_reject_any_status (d : DecisionRecord) (reason : String)
    (site vendor : String) (cost limit : Int) :
    approve d = { d with status := "APPROVED" }
    ∧ reject d reason = { d with status := "REJECTED", rejection_reason := some reason }
    ∧ (approve (pause_for_approval site vendor cost limit)).reason =
        "Cost ₹" ++ commaFormat cost ++ " exceeds site approval limit of ₹" ++ commaFormat limit :=
  ⟨rfl, rfl, rfl⟩

/-- The fold inside `select_cheapest` keeps the first element whose price
is minimal: the input splits around the result, everything before it is
strictly more expensive, and nothing anywhere is cheaper. -/
lemma foldl_pick_first_min (rest : List Vendor) (v : Vendor) :
    ∃ l₁ l₂,
      v :: rest = l₁ ++ (rest.foldl (fun best w => if w.price < best.price then w else best) v) :: l₂
      ∧ (∀ w ∈ l₁, (rest.foldl (fun best w => if w.price < best.price then w else best) v).price < w.price)
      ∧ (∀ w ∈ v :: rest, (rest.foldl (fun best w => if w.price < best.price then w else best) v).price ≤ w.price) := by
  induction rest generalizing v with
  | nil =>
    refine ⟨[], [], rfl, ?_, ?_⟩
    · intro w hw
      simp at hw
    · intro w hw
      simp at hw
      simp [hw]
  | cons x xs ih =>
    by_cases hx : x.price < v.price
    · obtain ⟨l₁, l₂, heq, hlt, hle⟩ := ih x
      have hfold : (x :: xs).foldl (fun best w => if w.price < best.price then w else best) v
          = xs.foldl (fun best w => if w.price < best.price then w else best) x := by
        simp [List.foldl_cons, hx]
      rw [hfold]
      refine ⟨v :: l₁, l₂, ?_, ?_, ?_⟩
      · rw [heq]
        rfl
      · intro w hw
        rcases List.mem_cons.mp hw with hwv | hwl
        · subst hwv
          exact lt_of_le_of_lt (hle x (List.mem_cons_self x xs)) hx
        · exact hlt w hwl
      · intro w hw
        rcases List.mem_cons.mp hw with hwv | hwr
        · subst hwv
          exact le_of_lt (lt_of_le_of_lt (hle x (List.mem_cons_self x xs)) hx)
        · exact hle w hwr
    · obtain ⟨l₁, l₂, heq, hlt, hle⟩ := ih v
      have hvx : v.price ≤ x.price := le_of_not_lt hx
      have hfold : (x :: xs).foldl (fun best w => if w.price < best.price then w else best) v
          = xs.foldl (fun best w => if w.price < best.price then w else best) v := by
        simp [List.foldl_cons, hx]
      rw [hfold]
      cases l₁ with
      | nil =>
        simp only [List.nil_append] at heq
        injection heq with h1 h2
        refine ⟨[], x :: xs, ?_, ?_, ?_⟩
        · rw [← h1]
          rfl
        · intro w hw
          simp at hw
        · intro w hw
          rcases List.mem_cons.mp hw with hwv | hw2
          · subst hwv
            rw [← h1]
          · rcases List.mem_cons.mp hw2 with hwx | hwr
            · subst hwx
              rw [← h1]
              exact hvx
            · exact hle w (List.mem_cons_of_mem v hwr)
      | cons v₀ l₁' =>
        rw [List.cons_append] at heq
        injection heq with h1 h2
        have hbv := hlt v₀ (List.mem_cons_self v₀ l₁')
        rw [← h1] at hbv
        refine ⟨v :: x :: l₁', l₂, ?_, ?_, ?_⟩
        · rw [List.cons_append, List.cons_append, ← h2]
        · intro w hw
          rcases List.mem_cons.mp hw with hwv | hw2
          · subst hwv
            exact hbv
          · rcases List.mem_cons.mp hw2 with hwx | hwr
            · subst hwx
              exact lt_of_lt_of_le hbv hvx
            · exact hlt w (List.mem_cons_of_mem v₀ hwr)
        · intro w hw
          rcases List.mem_cons.mp hw with hwv | hw2
          · rw [hwv]
            exact hle v (List.mem_cons_self v xs)
          · rcases List.mem_cons.mp hw2 with hwx | hwr
            · subst hwx
              exact le_of_lt (lt_of_lt_of_le hbv hvx)
            · exact hle w (List.mem_cons_of_mem v hwr)

/-- Claim C2: on the empty list `select_cheapest` returns the explicit
`none` value; on a non-empty list it returns a member whose price is ≤
every other member's price, and every vendor listed before the returned
one is strictly more expensive — the earliest tied minimum wins. -/
theorem select_cheapest_spec (vendors : List Vendor) :
    select_cheapest ([] : List Vendor) = none
    ∧ (vendors ≠ [] → ∃ l₁ v l₂, vendors = l₁ ++ v :: l₂
        ∧ select_cheapest vendors = some v
        ∧ (∀ w ∈ l₁, v.price < w.price)
        ∧ (∀ w ∈ vendors, v.price ≤ w.price)) := by
  refine ⟨rfl, ?_⟩
  intro hne
  cases vendors with
  | nil => exact absurd rfl hne
  | cons v rest =>
    obtain ⟨l₁, l₂, heq, hlt, hle⟩ := foldl_pick_first_min rest v
    exact ⟨l₁, _, l₂, heq, rfl, hlt, hle⟩

/-- Witness for C2 on the spec's three-vendor catalog. -/
theorem select_cheapest_spec_witness :
    ∃ l₁ v l₂, ([⟨"UltraTech", 45000⟩, ⟨"BadRock", 38000⟩, ⟨"ACC", 42000⟩] : List Vendor) = l₁ ++ v :: l₂
      ∧ select_cheapest [⟨"UltraTech", 45000⟩, ⟨"BadRock", 38000⟩, ⟨"ACC", 42000⟩] = some v
      ∧ (∀ w ∈ l₁, v.price < w.price)
      ∧ (∀ w ∈ ([⟨"UltraTech", 45000⟩, ⟨"BadRock", 38000⟩, ⟨"ACC", 42000⟩] : List Vendor), v.price ≤ w.price) :=
  (select_cheapest_spec _).2 (by decide)

/-- Claim C3: when rules exist and a vendor is selected, the approval gate
returns Approved carrying vendor, cost and limit whenever cost ≤ limit
(boundary included), and AwaitingApproval carrying the same fields whenever
cost > limit; the comparison produces nothing else. -/
theorem approval_gate_spec (catalog : List Vendor) (memory : Memory) (site item : String)
    (quantity : Int) (rules : SiteRules) (v : Vendor)
    (hr : read_site_rules memory site = some rules)
    (hv : select_cheapest (filter_vendors catalog (rules.banned_vendors.getD [])) = some v)
    (hc : 0 ≤ v.price) (hl : 0 ≤ rules.approval_limit) :
    (v.price ≤ rules.approval_limit →
      process_procurement catalog memory site item quantity =
        Decision.approved site item quantity v.name v.price rules.approval_limit
          ("Cost ₹" ++ commaFormat v.price ++ " is within approval limit of ₹" ++
            commaFormat rules.approval_limit))
    ∧ (rules.approval_limit < v.price →
      process_procurement catalog memory site item quantity =
        Decision.awaiting
          { status := "AWAITING_APPROVAL", site := site, selected_vendor := v.name,
            amount := v.price, approval_limit := rules.approval_limit,
            reason := "Cost ₹" ++ commaFormat v.price ++ " exceeds site approval limit of ₹" ++
              commaFormat rules.approval_limit,
            rejection_reason := none }) := by
  simp only [process_procurement, evaluate_vendors]
  rw [hr]
  simp only [hv]
  constructor
  · intro hle
    rw [if_pos hle]
  · intro hgt
    rw [if_neg (not_le.mpr hgt)]
    rfl

/-- Witness for C3: an over-limit cost pauses the concrete order. -/
theorem approval_gate_spec_witness :
    (0 : Int) ≤ 42000 ∧ (0 : Int) ≤ 40000 ∧
    process_procurement [⟨"ACC", 42000⟩] ([("Pune", ⟨40000, some []⟩)] : Memory) "Pune" "cement" 100 =
      Decision.awaiting
        { status := "AWAITING_APPROVAL", site := "Pune", selected_vendor := "ACC",
          amount := 42000, approval_limit := 40000,
          reason := "Cost ₹42,000 exceeds site approval limit of ₹40,000",
          rejection_reason := none } :=
  ⟨by decide, by decide,
    (approval_gate_spec [⟨"ACC", 42000⟩] [("Pune", ⟨40000, some []⟩)] "Pune" "cement" 100
      ⟨40000, some []⟩ ⟨"ACC", 42000⟩ rfl rfl (by decide) (by decide)).2 (by decide)⟩

/-- Claim C1 (amended): `process_procurement` follows the composition rule —
missing rules give an Error mentioning the site, an empty surviving vendor
list gives Rejected with the code's "All vendors are banned. No valid
vendor available." reason, otherwise the cheapest surviving vendor's price
is gated against the approval limit; item and quantity only ever appear in
the reporting fields of the outcome. -/
theorem process_procurement_composition (catalog : List Vendor) (memory : Memory)
    (site item : String) (quantity : Int) :
    (read_site_rules memory site = none →
      process_procurement catalog memory site item quantity =
        Decision.error ("No rules found for site '" ++ site ++ "'. Please set up site rules first."))
    ∧ (∀ rules, read_site_rules memory site = some rules →
        (filter_vendors catalog (rules.banned_vendors.getD []) = [] →
          process_procurement catalog memory site item quantity =
            Decision.rejected "All vendors are banned. No valid vendor available."
              (rules.banned_vendors.getD []))
        ∧ (∀ v, select_cheapest (filter_vendors catalog (rules.banned_vendors.getD [])) = some v →
            process_procurement catalog memory site item quantity =
              (if v.price ≤ rules.approval_limit then
                Decision.approved site item quantity v.name v.price rules.approval_limit
                  ("Cost ₹" ++ commaFormat v.price ++ " is within approval limit of ₹" ++
                    commaFormat rules.approval_limit)
              else
                Decision.awaiting (pause_for_approval site v.name v.price rules.approval_limit))))
    ∧ (∀ item2 : String, ∀ quantity2 : Int,
        stripReporting (process_procurement catalog memory site item quantity) =
          stripReporting (process_procurement catalog memory site item2 quantity2)) := by
  refine ⟨?_, ?_, ?_⟩
  · intro h
    simp only [process_procurement]
    rw [h]
  · intro rules h
    constructor
    · intro hfil
      simp only [process_procurement, evaluate_vendors]
      rw [h]
      simp only [hfil]
      rfl
    · intro v hv
      simp only [process_procurement, evaluate_vendors]
      rw [h]
      simp only [hv]
  · intro item2 quantity2
    cases hrd : read_site_rules memory site with
    | none => simp only [process_procurement, evaluate_vendors, hrd]
    | some rules =>
      cases hsel : select_cheapest (filter_vendors catalog (rules.banned_vendors.getD [])) with
      | none => simp only [process_procurement, evaluate_vendors, hrd, hsel]
      | some v =>
        by_cases hc : v.price ≤ rules.approval_limit
        · simp only [process_procurement, evaluate_vendors, hrd, hsel, if_pos hc, stripReporting]
        · simp only [process_procurement, evaluate_vendors, hrd, hsel, if_neg hc, stripReporting]

/-- Counterexample to C1 as stated: when every vendor is banned the code's
Rejected reason is "All vendors are banned. No valid vendor available.",
not the string "all vendors banned" quoted by the claim. -/
theorem process_procurement_rejected_reason_counterexample :
    process_procurement [⟨"acme", 10⟩] ([("Pune", ⟨40000, some ["acme"]⟩)] : Memory)
        "Pune" "cement" 1 =
      Decision.rejected "All vendors are banned. No valid vendor available." ["acme"]
    ∧ process_procurement [⟨"acme", 10⟩] ([("Pune", ⟨40000, some ["acme"]⟩)] : Memory)
        "Pune" "cement" 1 ≠
      Decision.rejected "all vendors banned" ["acme"] := by
  constructor
  · rfl
  · decide

/-- Witness for C1 (amended) on a site with no stored rules. -/
theorem process_procurement_composition_witness :
    process_procurement [] ([] : Memory) "Pune" "cement" 100 =
      Decision.error "No rules found for site 'Pune'. Please set up site rules first." :=
  (process_procurement_composition [] [] "Pune" "cement" 100).1 rfl
